import Mathlib

/-!
Verification of the commit-history collector: a shallow embedding of
the Python source (the line classifier over `git log --numstat` output
in `collect_commits`, the repository-skip guard, and the clone
precondition), together with theorems settling the specification's
claims about it.

Strings are modelled as Lean `String`s processed through their
character lists.  The two Python regular expressions are embedded as
deterministic character-list parsers implementing exactly the
backtracking behaviour of `re.match` on newline-free lines; the log
text is split on the newline character before classification, so no
classified line ever contains one.  The character classes are
restricted to ASCII (the alphabet `git log` emits for hashes, counts
and separators).
-/

/-- ASCII decimal digit: the `\d` class of the numstat pattern
(restricted to ASCII). -/
def isAsciiDigit (c : Char) : Bool :=
  decide ('0' ≤ c) && decide (c ≤ '9')

/-- The character class `[0-9a-fA-F]` of the commit-hash capture. -/
def isHexChar (c : Char) : Bool :=
  isAsciiDigit c || (decide ('a' ≤ c) && decide (c ≤ 'f')) ||
    (decide ('A' ≤ c) && decide (c ≤ 'F'))

/-- Whitespace as recognised by Python's `\s` class and `str.strip`
(restricted to the ASCII whitespace characters). -/
def isPySpace (c : Char) : Bool :=
  c == ' ' || c == '\t' || c == '\n' || c == '\r' ||
    c == Char.ofNat 11 || c == Char.ofNat 12

/-- Python's `str.split` on the newline character: splits at every
newline and keeps empty pieces (the empty string yields one empty
piece). -/
def splitLines : List Char → List (List Char)
  | [] => [[]]
  | c :: rest =>
    if c = '\n' then [] :: splitLines rest
    else
      match splitLines rest with
      | [] => [[c]]
      | l :: ls => (c :: l) :: ls

/-- Python's `str.replace` of a newline by the two characters
backslash-n, on a character list. -/
def replaceNewlines : List Char → List Char
  | [] => []
  | c :: rest =>
    if c = '\n' then '\\' :: 'n' :: replaceNewlines rest
    else c :: replaceNewlines rest

/-- Matches the literal separator `" | "` at the head of the list,
returning the remainder. -/
def sepHere (cs : List Char) : Option (List Char) :=
  match cs with
  | a :: b :: c :: post =>
    if a = ' ' ∧ b = '|' ∧ c = ' ' then some post else none
  | _ => none

/-- Leftmost occurrence of the separator `" | "`: splits the input as
`pre ++ " | " ++ post` with `pre` shortest, possibly empty (lazy
matching). -/
def splitFirstSep : List Char → Option (List Char × List Char)
  | [] => none
  | c :: rest =>
    match sepHere (c :: rest) with
    | some post => some ([], post)
    | none => (splitFirstSep rest).map (fun p => (c :: p.1, p.2))

/-- The tail `(.+?) \| (.*)$` of the commit pattern: a non-empty lazy
date capture, the separator, then the message running to the end of
the line. -/
def dateMsg : List Char → Option (List Char × List Char)
  | [] => none
  | c :: rest => (splitFirstSep rest).map (fun p => (c :: p.1, p.2))

/-- The tail `(.*?) \| (.+?) \| (.*)$` of the commit pattern: a lazy
(possibly empty) author capture, then date and message as in `dateMsg`.
When the rest of the pattern fails at a candidate split the author
capture grows by one character, exactly as `re` backtracks a lazy
group. -/
def authorDateMsg : List Char → Option (List Char × List Char × List Char)
  | [] => none
  | c :: rest =>
    match sepHere (c :: rest) with
    | some post =>
      match dateMsg post with
      | some dm => some ([], dm.1, dm.2)
      | none => (authorDateMsg rest).map (fun t => (c :: t.1, t.2))
    | none => (authorDateMsg rest).map (fun t => (c :: t.1, t.2))

/-- The commit-header pattern of the source, anchored by `re.match`:
forty hex characters, the separator, a lazy author capture (may be
empty), the separator, a lazy non-empty date capture, the separator,
and the message to the end of the line. -/
def parseCommit (line : String) : Option (String × String × String × String) :=
  if (line.data.take 40).length = 40 ∧ (∀ c ∈ line.data.take 40, isHexChar c = true) then
    match sepHere (line.data.drop 40) with
    | some afterSep =>
      match authorDateMsg afterSep with
      | some adm =>
        some ((line.data.take 40).asString, adm.1.asString, adm.2.1.asString, adm.2.2.asString)
      | none => none
    | none => none
  else none

/-- The numstat field `(\d+|-)`: a single dash, or a maximal non-empty
run of digits (the alternation admits no other split, since any
shorter digit run is followed by a digit where `\s+` would have to
match). -/
def numField (cs : List Char) : Option (List Char × List Char) :=
  match cs with
  | [] => none
  | c :: rest =>
    if c = '-' then some (['-'], rest)
    else
      if (c :: rest).takeWhile isAsciiDigit = [] then none
      else some ((c :: rest).takeWhile isAsciiDigit, (c :: rest).dropWhile isAsciiDigit)

/-- The numstat pattern `^(\d+|-)\s+(\d+|-)\s+(.+)$` of the source,
anchored by `re.match`: two counts separated by whitespace runs, then
the file path to the end of the line.  The final `\s+` gives one
whitespace character back to `(.+)` when the line ends in whitespace,
exactly as the greedy run backtracks. -/
def parseNumstatChars (cs : List Char) : Option (String × String × String) :=
  match numField cs with
  | none => none
  | some g1r =>
    if g1r.2.takeWhile isPySpace = [] then none
    else
      match numField (g1r.2.dropWhile isPySpace) with
      | none => none
      | some g2r =>
        if g2r.2.takeWhile isPySpace = [] then none
        else
          if g2r.2.dropWhile isPySpace = [] then
            if 2 ≤ g2r.2.length then
              some (g1r.1.asString, g2r.1.asString, (g2r.2.drop (g2r.2.length - 1)).asString)
            else none
          else some (g1r.1.asString, g2r.1.asString, (g2r.2.dropWhile isPySpace).asString)

/-- The numstat pattern applied to one line. -/
def parseNumstat (line : String) : Option (String × String × String) :=
  parseNumstatChars line.data

/-- One row of the flattened commit history: the dictionary appended
to `file_changes` in `collect_commits`, with its seven string
fields. -/
structure FileChangeRecord where
  hash : String
  author : String
  date : String
  message : String
  file : String
  additions : String
  deletions : String
deriving DecidableEq, Repr

/-- The four carried variables of `collect_commits`, each initially
`None`.  On every reachable state the four are all `none` or all
`some` (they are only ever assigned together); the source guards
emission on the hash alone. -/
structure ParserState where
  current_hash : Option String
  current_author : Option String
  current_date : Option String
  current_message : Option String
deriving DecidableEq, Repr

/-- The state before any line has been read: all four variables are
`None`. -/
def initialState : ParserState := ⟨none, none, none, none⟩

/-- Truthiness of the stripped line: some character survives
whitespace stripping. -/
def stripTruthy (line : String) : Bool :=
  line.data.any (fun c => !(isPySpace c))

/-- One iteration of the loop over the log lines: the chain checking
the commit pattern, then the numstat pattern guarded by a defined
hash, then non-blankness of the stripped line.  Returns the new state,
the records appended, and the diagnostic lines printed by this
iteration.  The `Option.getD` defaults are never read: whenever
`current_hash` is `some`, so are the other three fields. -/
def processLine (st : ParserState) (line : String) :
    ParserState × List FileChangeRecord × List String :=
  match parseCommit line with
  | some (h, a, d, m) =>
    ({ current_hash := some h,
       current_author := some (if a = "" then "Unknown Author" else a),
       current_date := some d,
       current_message := some m }, [], [])
  | none =>
    match parseNumstat line with
    | some (additions, deletions, file_name) =>
      match st.current_hash with
      | some h =>
        (st, [{ hash := h,
                author := st.current_author.getD "",
                date := st.current_date.getD "",
                message := st.current_message.getD "",
                file := file_name,
                additions := additions,
                deletions := deletions }], [])
      | none =>
        if stripTruthy line then (st, [], ["Unexpected format in line: " ++ line])
        else (st, [], [])
    | none =>
      if stripTruthy line then (st, [], ["Unexpected format in line: " ++ line])
      else (st, [], [])

/-- The whole classification loop of `collect_commits`, started from a
given state: returns the accumulated `file_changes` list and the
printed diagnostics, in input order. -/
def collectLines : ParserState → List String → List FileChangeRecord × List String
  | _, [] => ([], [])
  | st, l :: ls =>
    ((processLine st l).2.1 ++ (collectLines (processLine st l).1 ls).1,
     (processLine st l).2.2 ++ (collectLines (processLine st l).1 ls).2)

/-- The parser of `collect_commits`: the captured log output text is
split on newline characters (the source hands the subprocess output
itself, with no transformation, to the split) and the lines are
classified in order from the initial all-`None` state. -/
def collect_commits (log_output : String) : List FileChangeRecord × List String :=
  collectLines initialState ((splitLines log_output.data).map List.asString)

/-- A one-character string holding the shell quote character. -/
def singleQuote : String := (Char.ofNat 39).toString

/-- The f-string of the source building the log invocation for a given
temporary directory (full history, all refs, numstat, raised rename
limit, fixed date format). -/
def git_log_command_raw (temp_dir : String) : String :=
  "git -C " ++ temp_dir ++
    " -c diff.renameLimit=10000 log --all --pretty=format:" ++ singleQuote ++
    "%H | %an | %ad | %s" ++ singleQuote ++ " --numstat --date=format:" ++
    singleQuote ++ "%Y-%m-%d %H:%M:%S" ++ singleQuote

/-- The command string actually sent to the shell: the source applies
its newline replacement to the command f-string itself, not to the
captured log output. -/
def git_log_command (temp_dir : String) : String :=
  (replaceNewlines (git_log_command_raw temp_dir).data).asString

/-- One entry of the fixed repository list. -/
structure RepoEntry where
  owner : String
  repo_name : String
deriving DecidableEq, Repr

/-- Embeds `repo_already_existing`: scans the list, returning true at
the first entry matching both owner and name; an entry matching the
name only prints a notice and the scan continues.  Returns the boolean
result together with the printed notices. -/
def repo_already_existing (owner repo_name : String) : List RepoEntry → Bool × List String
  | [] => (false, [])
  | r :: rest =>
    if r.owner = owner ∧ r.repo_name = repo_name then (true, [])
    else if r.repo_name = repo_name then
      ((repo_already_existing owner repo_name rest).1,
       "Project name already exists" :: (repo_already_existing owner repo_name rest).2)
    else repo_already_existing owner repo_name rest

/-- The statically embedded list of already-processed repositories. -/
def repos : List RepoEntry :=
  [⟨"tensorflow", "tensorflow"⟩, ⟨"keras-team", "keras"⟩, ⟨"pytorch", "pytorch"⟩,
   ⟨"microsoft", "vscode"⟩, ⟨"microsoft", "PowerToys"⟩, ⟨"facebook", "react"⟩,
   ⟨"facebook", "react-native"⟩, ⟨"facebook", "create-react-app"⟩,
   ⟨"home-assistant", "core"⟩, ⟨"flutter", "flutter"⟩, ⟨"microsoftdocs", "azure-docs"⟩,
   ⟨"automatic1111", "stable-diffusion-webui"⟩, ⟨"vercel", "next.js"⟩,
   ⟨"langchain-ai", "langchain"⟩]

/-- The observable side-effecting stages of the per-repository
pipeline. -/
inductive PipelineStep where
  | cloneRepo
  | collectCommits
  | exportCsv
  | removeTempDir
deriving DecidableEq, Repr

/-- Embeds the driver `get_commit_history_as_csv` as the trace of
side-effecting stages it performs: with the skip guard taken it
returns before any stage; otherwise it clones, collects, exports and
removes the temporary directory, in that order. -/
def get_commit_history_as_csv (repo_owner repo_name : String) : List PipelineStep :=
  if (repo_already_existing repo_owner repo_name repos).1 then []
  else [PipelineStep.cloneRepo, PipelineStep.collectCommits,
        PipelineStep.exportCsv, PipelineStep.removeTempDir]

/-- The external actions `clone_repo` can perform. -/
inductive CloneAction where
  | makedirs (dir : String)
  | gitClone (url : String) (dir : String)
deriving DecidableEq, Repr

/-- Embeds `clone_repo`.  The filesystem is abstracted as the list of
existing paths (path existence is membership).  On success it returns
the updated path list together with the actions performed in order; if
the target directory already exists it fails with the
`FileExistsError` message, performing no action and leaving the paths
unchanged. -/
def clone_repo (existing_paths : List String)
    (repo_owner repo_name temp_dir token : String) :
    Except String (List String × List CloneAction) :=
  if temp_dir ∈ existing_paths then
    Except.error (singleQuote ++ temp_dir ++ singleQuote ++
      " already exists. Please provide a different path or remove the directory.")
  else
    Except.ok (temp_dir :: existing_paths,
      [CloneAction.makedirs temp_dir,
       CloneAction.gitClone
         ("https://" ++ token ++ "@github.com/" ++ repo_owner ++ "/" ++ repo_name)
         temp_dir])

/-- Header fields (hash, author, date, message) as captured from a
commit-header line, the author not yet sentinel-substituted. -/
abbrev CommitHeader := String × String × String × String

/-- Folding step locating the most recent header line: a header line
replaces the carried fields, any other line keeps them. -/
def headerStep (cur : Option CommitHeader) (line : String) : Option CommitHeader :=
  match parseCommit line with
  | some hdr => some hdr
  | none => cur

/-- Fields of the most recently seen commit-header line (scanning left
to right), starting from a virtual earlier header `init`. -/
def lastHeaderFields (init : Option CommitHeader) (lines : List String) :
    Option CommitHeader :=
  lines.foldl headerStep init

/-- The carried parser state corresponding to a most recent header
(with the author sentinel substituted), or the initial all-`none`
state when no header has been seen. -/
def stateOfHeader : Option CommitHeader → ParserState
  | none => ⟨none, none, none, none⟩
  | some (h, a, d, m) =>
    { current_hash := some h,
      current_author := some (if a = "" then "Unknown Author" else a),
      current_date := some d,
      current_message := some m }

/-- The record the specification prescribes for one line under a given
most-recent header: a numstat-matching line with a previously seen
header contributes exactly one record carrying that header's
sentinel-substituted fields together with the three numstat captures;
any other line contributes none. -/
def specEmit (cur : Option CommitHeader) (line : String) : Option FileChangeRecord :=
  match parseNumstat line, cur with
  | some (add, del, f), some (h, a, d, m) =>
    some { hash := h, author := if a = "" then "Unknown Author" else a,
           date := d, message := m, file := f, additions := add, deletions := del }
  | _, _ => none

/-- The records the specification prescribes, written positionally:
line `i` contributes `specEmit` of the most recent header among the
lines before it (with the virtual earlier history `init`). -/
def inheritedFrom (init : Option CommitHeader) (lines : List String) :
    List FileChangeRecord :=
  (List.range lines.length).filterMap (fun i =>
    specEmit (lastHeaderFields init (lines.take i)) (lines.getD i ""))

/-- A forty-character hexadecimal string. -/
def HexString40 (s : String) : Prop :=
  s.data.length = 40 ∧ ∀ c ∈ s.data, isHexChar c = true

/-- A non-empty all-digit string. -/
def DigitString (s : String) : Prop :=
  s.data ≠ [] ∧ ∀ c ∈ s.data, isAsciiDigit c = true

lemma takeWhile_cons_eq (p : Char → Bool) (a : Char) (l : List Char) :
    (a :: l).takeWhile p = if p a then a :: l.takeWhile p else [] := by
  cases h : p a <;> simp [List.takeWhile_cons, h]

lemma dropWhile_cons_eq (p : Char → Bool) (a : Char) (l : List Char) :
    (a :: l).dropWhile p = if p a then l.dropWhile p else a :: l := by
  cases h : p a <;> simp [List.dropWhile_cons, h]

lemma takeWhile_append_all (p : Char → Bool) :
    ∀ (l₁ l₂ : List Char), (∀ x ∈ l₁, p x = true) →
      (l₁ ++ l₂).takeWhile p = l₁ ++ l₂.takeWhile p := by
  intro l₁
  induction l₁ with
  | nil => intro l₂ _; simp
  | cons a t ih =>
    intro l₂ h
    have ha : p a = true := h a (by simp)
    rw [List.cons_append, takeWhile_cons_eq, if_pos ha,
      ih l₂ (fun x hx => h x (by simp [hx])), List.cons_append]

lemma dropWhile_append_all (p : Char → Bool) :
    ∀ (l₁ l₂ : List Char), (∀ x ∈ l₁, p x = true) →
      (l₁ ++ l₂).dropWhile p = l₂.dropWhile p := by
  intro l₁
  induction l₁ with
  | nil => intro l₂ _; simp
  | cons a t ih =>
    intro l₂ h
    have ha : p a = true := h a (by simp)
    rw [List.cons_append, dropWhile_cons_eq, if_pos ha,
      ih l₂ (fun x hx => h x (by simp [hx]))]

lemma dropWhile_head_false (p : Char → Bool) :
    ∀ (l : List Char) (c : Char) (t : List Char),
      l.dropWhile p = c :: t → p c = false := by
  intro l
  induction l with
  | nil => intro c t h; simp [List.dropWhile] at h
  | cons a l ih =>
    intro c t h
    rw [dropWhile_cons_eq] at h
    by_cases ha : p a = true
    · rw [if_pos ha] at h; exact ih c t h
    · rw [if_neg ha] at h
      obtain ⟨rfl, rfl⟩ := List.cons.injEq .. ▸ h
      · simpa using ha

lemma mem_of_dropWhile_cons (p : Char → Bool) :
    ∀ (l : List Char) (c : Char) (t : List Char),
      l.dropWhile p = c :: t → c ∈ l := by
  intro l
  induction l with
  | nil => intro c t h; simp [List.dropWhile] at h
  | cons a l ih =>
    intro c t h
    rw [dropWhile_cons_eq] at h
    by_cases ha : p a = true
    · rw [if_pos ha] at h; exact List.mem_cons_of_mem a (ih c t h)
    · rw [if_neg ha] at h
      have : a = c := (List.cons.injEq .. ▸ h).1
      simp [this]

lemma dropWhile_append_cons (p : Char → Bool) :
    ∀ (l₁ l₂ : List Char) (c : Char) (t : List Char),
      l₁.dropWhile p = c :: t → (l₁ ++ l₂).dropWhile p = c :: (t ++ l₂) := by
  intro l₁
  induction l₁ with
  | nil => intro l₂ c t h; simp [List.dropWhile] at h
  | cons a l ih =>
    intro l₂ c t h
    rw [dropWhile_cons_eq] at h
    rw [List.cons_append, dropWhile_cons_eq]
    by_cases ha : p a = true
    · rw [if_pos ha]; exact ih l₂ c t (by rw [if_pos ha] at h; exact h)
    · rw [if_neg ha] at h
      rw [if_neg ha]
      obtain ⟨rfl, rfl⟩ := List.cons.injEq .. ▸ h
      · simp

lemma takeWhile_ne_nil_head (p : Char → Bool) (l : List Char)
    (h : l.takeWhile p ≠ []) : ∃ c t, l = c :: t ∧ p c = true := by
  cases l with
  | nil => simp [List.takeWhile] at h
  | cons a t =>
    refine ⟨a, t, rfl, ?_⟩
    by_contra ha
    rw [takeWhile_cons_eq, if_neg ha] at h
    exact h rfl

lemma mem_takeWhile_pred (p : Char → Bool) :
    ∀ (l : List Char) (x : Char), x ∈ l.takeWhile p → p x = true := by
  intro l
  induction l with
  | nil => intro x h; simp [List.takeWhile] at h
  | cons a t ih =>
    intro x h
    rw [takeWhile_cons_eq] at h
    by_cases ha : p a = true
    · rw [if_pos ha] at h
      rcases List.mem_cons.mp h with rfl | h2
      · exact ha
      · exact ih x h2
    · rw [if_neg ha] at h; simp at h

lemma hex_not_space {c : Char} (h : isHexChar c = true) : isPySpace c = false := by
  by_contra hns
  have hs : isPySpace c = true := by
    cases hval : isPySpace c
    · exact absurd hval hns
    · rfl
  unfold isPySpace at hs
  simp only [Bool.or_eq_true, beq_iff_eq] at hs
  rcases hs with ((((rfl | rfl) | rfl) | rfl) | rfl) | rfl <;>
    exact absurd h (by decide)

lemma digit_is_hex {c : Char} (h : isAsciiDigit c = true) : isHexChar c = true := by
  unfold isHexChar
  simp [h]


lemma sepHere_cons (a b c : Char) (post : List Char) :
    sepHere (a :: b :: c :: post) =
      if a = ' ' ∧ b = '|' ∧ c = ' ' then some post else none := rfl

lemma sepHere_some {cs post : List Char} (h : sepHere cs = some post) :
    cs = ' ' :: '|' :: ' ' :: post := by
  cases cs with
  | nil => simp [sepHere] at h
  | cons a cs1 =>
    cases cs1 with
    | nil => simp [sepHere] at h
    | cons b cs2 =>
      cases cs2 with
      | nil => simp [sepHere] at h
      | cons c p =>
        rw [sepHere_cons] at h
        by_cases hc : a = ' ' ∧ b = '|' ∧ c = ' '
        · rw [if_pos hc] at h
          obtain ⟨rfl, rfl, rfl⟩ := hc
          injection h with h
          rw [h]
        · rw [if_neg hc] at h
          exact absurd h (by simp)

lemma numField_cons (c : Char) (rest : List Char) :
    numField (c :: rest) =
      if c = '-' then some (['-'], rest)
      else
        if (c :: rest).takeWhile isAsciiDigit = [] then none
        else some ((c :: rest).takeWhile isAsciiDigit, (c :: rest).dropWhile isAsciiDigit) := rfl

lemma parseNumstatChars_none_of_numField {cs : List Char} (h : numField cs = none) :
    parseNumstatChars cs = none := by
  unfold parseNumstatChars
  rw [h]

lemma parseNumstatChars_after_g1 {cs g r : List Char} (h : numField cs = some (g, r)) :
    parseNumstatChars cs =
      (if r.takeWhile isPySpace = [] then none
       else
         match numField (r.dropWhile isPySpace) with
         | none => none
         | some g2r =>
           if g2r.2.takeWhile isPySpace = [] then none
           else
             if g2r.2.dropWhile isPySpace = [] then
               if 2 ≤ g2r.2.length then
                 some (g.asString, g2r.1.asString, (g2r.2.drop (g2r.2.length - 1)).asString)
               else none
             else some (g.asString, g2r.1.asString, (g2r.2.dropWhile isPySpace).asString)) := by
  unfold parseNumstatChars
  rw [h]

lemma numstat_none_of_header_shape (H post : List Char)
    (hne : H ≠ []) (hhex : ∀ c ∈ H, isHexChar c = true) :
    parseNumstatChars (H ++ ' ' :: '|' :: ' ' :: post) = none := by
  obtain ⟨h0, H', rfl⟩ := List.exists_cons_of_ne_nil hne
  have hh0 : isHexChar h0 = true := hhex h0 (by simp)
  have hnd : ¬ (h0 = '-') := by
    intro e; rw [e] at hh0; exact absurd hh0 (by decide)
  by_cases hall : ∀ c ∈ h0 :: H', isAsciiDigit c = true
  · -- the whole hash is digits: the digit run swallows it, a single
    -- space follows, and the pipe can match neither count nor dash
    have htwS : (' ' :: '|' :: ' ' :: post).takeWhile isAsciiDigit = [] := by
      rw [takeWhile_cons_eq, if_neg (by decide)]
    have hdwS : (' ' :: '|' :: ' ' :: post).dropWhile isAsciiDigit =
        ' ' :: '|' :: ' ' :: post := by
      rw [dropWhile_cons_eq, if_neg (by decide)]
    have htw : ((h0 :: H') ++ ' ' :: '|' :: ' ' :: post).takeWhile isAsciiDigit =
        h0 :: H' := by
      rw [takeWhile_append_all _ _ _ hall, htwS, List.append_nil]
    have hdw : ((h0 :: H') ++ ' ' :: '|' :: ' ' :: post).dropWhile isAsciiDigit =
        ' ' :: '|' :: ' ' :: post := by
      rw [dropWhile_append_all _ _ _ hall, hdwS]
    have hnf : numField ((h0 :: H') ++ ' ' :: '|' :: ' ' :: post) =
        some (h0 :: H', ' ' :: '|' :: ' ' :: post) := by
      rw [List.cons_append, numField_cons, if_neg hnd, ← List.cons_append, htw, hdw]
      rw [if_neg (by simp)]
    rw [parseNumstatChars_after_g1 hnf]
    have hw1 : (' ' :: '|' :: ' ' :: post).takeWhile isPySpace = [' '] := by
      rw [takeWhile_cons_eq, if_pos (by decide), takeWhile_cons_eq, if_neg (by decide)]
    have hr1 : (' ' :: '|' :: ' ' :: post).dropWhile isPySpace = '|' :: ' ' :: post := by
      rw [dropWhile_cons_eq, if_pos (by decide), dropWhile_cons_eq, if_neg (by decide)]
    have hnf2 : numField ('|' :: ' ' :: post) = none := by
      rw [numField_cons, if_neg (by decide)]
      rw [if_pos (by rw [takeWhile_cons_eq, if_neg (by decide)])]
    rw [if_neg (by rw [hw1]; simp), hr1, hnf2]
  · -- the hash contains a hex letter: the digit run stops inside the
    -- hash at a character that is not whitespace
    have hdne : (h0 :: H').dropWhile isAsciiDigit ≠ [] := by
      intro hf
      exact hall (fun c hc => List.dropWhile_eq_nil_iff.mp hf c hc)
    obtain ⟨c, t, hct⟩ := List.exists_cons_of_ne_nil hdne
    have hcmem : c ∈ h0 :: H' := mem_of_dropWhile_cons _ _ _ _ hct
    have hcns : isPySpace c = false := hex_not_space (hhex c hcmem)
    have hdw2 : ((h0 :: H') ++ ' ' :: '|' :: ' ' :: post).dropWhile isAsciiDigit =
        c :: (t ++ ' ' :: '|' :: ' ' :: post) :=
      dropWhile_append_cons _ _ _ _ _ hct
    by_cases htw0 : ((h0 :: H') ++ ' ' :: '|' :: ' ' :: post).takeWhile isAsciiDigit = []
    · have hnf : numField ((h0 :: H') ++ ' ' :: '|' :: ' ' :: post) = none := by
        rw [List.cons_append, numField_cons, if_neg hnd]
        rw [if_pos (by rw [← List.cons_append]; exact htw0)]
      exact parseNumstatChars_none_of_numField hnf
    · have hnf : numField ((h0 :: H') ++ ' ' :: '|' :: ' ' :: post) =
          some (((h0 :: H') ++ ' ' :: '|' :: ' ' :: post).takeWhile isAsciiDigit,
                c :: (t ++ ' ' :: '|' :: ' ' :: post)) := by
        rw [List.cons_append, numField_cons, if_neg hnd]
        rw [if_neg (by rw [← List.cons_append]; exact htw0), ← List.cons_append, hdw2]
      rw [parseNumstatChars_after_g1 hnf]
      rw [if_pos (by rw [takeWhile_cons_eq, if_neg (by simp [hcns])])]

lemma parseCommit_some_numstat_none (line : String) (x : CommitHeader)
    (h : parseCommit line = some x) : parseNumstat line = none := by
  unfold parseCommit at h
  by_cases hcond : (line.data.take 40).length = 40 ∧
      (∀ c ∈ line.data.take 40, isHexChar c = true)
  · rw [if_pos hcond] at h
    obtain ⟨hlen, hhex⟩ := hcond
    cases hsep : sepHere (line.data.drop 40) with
    | none => rw [hsep] at h; exact absurd h (by simp)
    | some post =>
      have hdrop : line.data.drop 40 = ' ' :: '|' :: ' ' :: post := sepHere_some hsep
      have hne : line.data.take 40 ≠ [] := by
        intro hf; rw [hf] at hlen; simp at hlen
      have key := numstat_none_of_header_shape (line.data.take 40) post hne hhex
      rw [← hdrop, List.take_append_drop] at key
      exact key
  · rw [if_neg hcond] at h
    exact absurd h (by simp)

lemma collectLines_nil (st : ParserState) : collectLines st [] = ([], []) := rfl

lemma collectLines_cons (st : ParserState) (l : String) (ls : List String) :
    collectLines st (l :: ls) =
      ((processLine st l).2.1 ++ (collectLines (processLine st l).1 ls).1,
       (processLine st l).2.2 ++ (collectLines (processLine st l).1 ls).2) := rfl

lemma processLine_commit {line : String} {h a d m : String} (st : ParserState)
    (hc : parseCommit line = some (h, a, d, m)) :
    processLine st line = (stateOfHeader (some (h, a, d, m)), [], []) := by
  unfold processLine
  rw [hc]
  rfl

lemma processLine_numstat_some {line : String} {add del f : String} {h : String}
    (st : ParserState) (hc : parseCommit line = none)
    (hn : parseNumstat line = some (add, del, f)) (hh : st.current_hash = some h) :
    processLine st line =
      (st, [{ hash := h,
              author := st.current_author.getD "",
              date := st.current_date.getD "",
              message := st.current_message.getD "",
              file := f, additions := add, deletions := del }], []) := by
  unfold processLine
  rw [hc, hn, hh]

lemma processLine_numstat_nohash {line : String} {add del f : String}
    (st : ParserState) (hc : parseCommit line = none)
    (hn : parseNumstat line = some (add, del, f)) (hh : st.current_hash = none) :
    processLine st line =
      (st, [], if stripTruthy line then ["Unexpected format in line: " ++ line] else []) := by
  unfold processLine
  rw [hc, hn, hh]
  by_cases hs : stripTruthy line = true
  · rw [if_pos hs, if_pos hs]
  · rw [if_neg hs, if_neg hs]

lemma processLine_nomatch {line : String} (st : ParserState)
    (hc : parseCommit line = none) (hn : parseNumstat line = none) :
    processLine st line =
      (st, [], if stripTruthy line then ["Unexpected format in line: " ++ line] else []) := by
  unfold processLine
  rw [hc, hn]
  by_cases hs : stripTruthy line = true
  · rw [if_pos hs, if_pos hs]
  · rw [if_neg hs, if_neg hs]

lemma processLine_nonheader_state {line : String} (st : ParserState)
    (hc : parseCommit line = none) : (processLine st line).1 = st := by
  cases hn : parseNumstat line with
  | some nm =>
    obtain ⟨add, del, f⟩ := nm
    cases hh : st.current_hash with
    | some h => rw [processLine_numstat_some st hc hn hh]
    | none =>
      rw [processLine_numstat_nohash st hc hn hh]
  | none =>
    rw [processLine_nomatch st hc hn]

lemma processLine_nonheader_author {line : String} (st : ParserState)
    (hc : parseCommit line = none) :
    ∀ r ∈ (processLine st line).2.1, r.author = st.current_author.getD "" := by
  cases hn : parseNumstat line with
  | some nm =>
    obtain ⟨add, del, f⟩ := nm
    cases hh : st.current_hash with
    | some h =>
      rw [processLine_numstat_some st hc hn hh]
      intro r hr
      rw [List.mem_singleton.mp hr]
    | none =>
      rw [processLine_numstat_nohash st hc hn hh]
      intro r hr
      exact absurd hr (by simp)
  | none =>
    rw [processLine_nomatch st hc hn]
    intro r hr
    exact absurd hr (by simp)

lemma filterMap_cons_eq {α β : Type} (f : α → Option β) (a : α) (l : List α) :
    List.filterMap f (a :: l) = (f a).toList ++ List.filterMap f l := by
  cases h : f a with
  | none => rw [List.filterMap_cons_none h]; rfl
  | some b => rw [List.filterMap_cons_some h]; rfl

lemma specEmit_no_numstat {line : String} (cur : Option CommitHeader)
    (hn : parseNumstat line = none) : specEmit cur line = none := by
  unfold specEmit
  rw [hn]

lemma specEmit_no_header {line : String} {add del f : String}
    (hn : parseNumstat line = some (add, del, f)) : specEmit none line = none := by
  unfold specEmit
  rw [hn]

lemma specEmit_some {line : String} {add del f h a d m : String}
    (hn : parseNumstat line = some (add, del, f)) :
    specEmit (some (h, a, d, m)) line =
      some { hash := h, author := if a = "" then "Unknown Author" else a,
             date := d, message := m, file := f, additions := add, deletions := del } := by
  unfold specEmit
  rw [hn]

lemma inheritedFrom_nil (init : Option CommitHeader) : inheritedFrom init [] = [] := by
  simp [inheritedFrom]

lemma inheritedFrom_cons (init : Option CommitHeader) (l : String) (ls : List String) :
    inheritedFrom init (l :: ls) =
      (specEmit init l).toList ++ inheritedFrom (headerStep init l) ls := by
  unfold inheritedFrom
  rw [List.length_cons, List.range_succ_eq_map, filterMap_cons_eq, List.filterMap_map]
  congr 1

lemma headerStep_some {l : String} {hdr : CommitHeader} (init : Option CommitHeader)
    (hc : parseCommit l = some hdr) : headerStep init l = some hdr := by
  unfold headerStep
  rw [hc]

lemma headerStep_none {l : String} (init : Option CommitHeader)
    (hc : parseCommit l = none) : headerStep init l = init := by
  unfold headerStep
  rw [hc]

lemma collectLines_inherited : ∀ (ls : List String) (init : Option CommitHeader),
    (collectLines (stateOfHeader init) ls).1 = inheritedFrom init ls := by
  intro ls
  induction ls with
  | nil => intro init; rw [collectLines_nil, inheritedFrom_nil]
  | cons l ls ih =>
    intro init
    rw [collectLines_cons, inheritedFrom_cons]
    cases hc : parseCommit l with
    | some hdr =>
      obtain ⟨h, a, d, m⟩ := hdr
      have hn : parseNumstat l = none := parseCommit_some_numstat_none l _ hc
      rw [processLine_commit _ hc, specEmit_no_numstat init hn,
        headerStep_some init hc]
      simp only [Option.toList, List.nil_append]
      exact ih (some (h, a, d, m))
    | none =>
      rw [headerStep_none init hc]
      cases hn : parseNumstat l with
      | some nm =>
        obtain ⟨add, del, f⟩ := nm
        cases init with
        | some hdr =>
          obtain ⟨h, a, d, m⟩ := hdr
          have hh : (stateOfHeader (some (h, a, d, m))).current_hash = some h := rfl
          rw [processLine_numstat_some _ hc hn hh, specEmit_some hn]
          simp only [Option.toList, Option.getD, List.singleton_append]
          rw [ih (some (h, a, d, m))]
          rfl
        | none =>
          have hh : (stateOfHeader none).current_hash = none := rfl
          rw [processLine_numstat_nohash _ hc hn hh, specEmit_no_header hn]
          simp only [Option.toList, List.nil_append]
          exact ih none
      | none =>
        rw [processLine_nomatch _ hc hn, specEmit_no_numstat init hn]
        simp only [Option.toList, List.nil_append]
        exact ih init

lemma numstat_stripTruthy (line : String) (x : String × String × String)
    (hn : parseNumstat line = some x) : stripTruthy line = true := by
  cases hd : line.data with
  | nil =>
    have hnone : parseNumstat line = none := by
      unfold parseNumstat
      rw [hd]
      exact parseNumstatChars_none_of_numField rfl
    rw [hnone] at hn
    exact absurd hn (by simp)
  | cons c rest =>
    have hcs : isPySpace c = false := by
      by_cases hdash : c = '-'
      · rw [hdash]; decide
      · cases htw : (c :: rest).takeWhile isAsciiDigit with
        | nil =>
          have hnf : numField (c :: rest) = none := by
            rw [numField_cons, if_neg hdash, if_pos htw]
          have hnone : parseNumstat line = none := by
            unfold parseNumstat
            rw [hd]
            exact parseNumstatChars_none_of_numField hnf
          rw [hnone] at hn
          exact absurd hn (by simp)
        | cons c2 t2 =>
          obtain ⟨c3, t3, heq, hdig⟩ :=
            takeWhile_ne_nil_head isAsciiDigit (c :: rest) (by rw [htw]; simp)
          injection heq with h1 _
          rw [← h1] at hdig
          exact hex_not_space (digit_is_hex hdig)
    unfold stripTruthy
    rw [hd]
    simp [hcs]

/-- Claim C1: for every parse of the log text by `collect_commits`, the
emitted records are exactly one per numstat-matching line preceded by at
least one commit-header line, each carrying the sentinel-substituted
hash, author, date and message of the most recent header line before it
(the positional description `inheritedFrom none` over the split
lines). -/
theorem collect_commits_inherits_header (log_output : String) :
    (collect_commits log_output).1 =
      inheritedFrom none ((splitLines log_output.data).map List.asString) :=
  collectLines_inherited ((splitLines log_output.data).map List.asString) none

/-- Claim C2 counterexample: a numstat-shaped line with no preceding
header anywhere yields no record, but the drop is not silent — the
unexpected-format diagnostic is printed for that line, refuting the
claimed absence of a diagnostic. -/
theorem numstat_before_header_not_silent :
    (collect_commits "5\t2\tfoo.txt").1 = [] ∧
    (collect_commits "5\t2\tfoo.txt").2 =
      ["Unexpected format in line: 5\t2\tfoo.txt"] ∧
    (collect_commits "5\t2\tfoo.txt").2 ≠ [] :=
  ⟨by decide, by decide, by decide⟩

/-- Claim C2 as amended: a numstat-matching line read while the carried
hash is still undefined emits no record and leaves the carried state
unchanged, but emits exactly one unexpected-format diagnostic — the
line, being numstat-shaped, is never blank after stripping, so it falls
through to the unexpected-format branch. -/
theorem numstat_before_header_diagnosed (st : ParserState) (line : String)
    (x : String × String × String) (hnl : '\n' ∉ line.data)
    (hh : st.current_hash = none) (hn : parseNumstat line = some x) :
    processLine st line = (st, [], ["Unexpected format in line: " ++ line]) := by
  obtain ⟨add, del, f⟩ := x
  have hc : parseCommit line = none := by
    cases hcc : parseCommit line with
    | none => rfl
    | some y =>
      rw [parseCommit_some_numstat_none line y hcc] at hn
      exact absurd hn (by simp)
  rw [processLine_numstat_nohash st hc hn hh]
  rw [if_pos (numstat_stripTruthy line _ hn)]

/-- Witness for the amended C2 theorem at the concrete pre-header
numstat line of the specification. -/
theorem numstat_before_header_diagnosed_witness :
    processLine initialState "5\t2\tfoo.txt" =
      (initialState, [], ["Unexpected format in line: 5\t2\tfoo.txt"]) :=
  numstat_before_header_diagnosed initialState "5\t2\tfoo.txt" ("5", "2", "foo.txt")
    (by decide) (by decide) (by decide)

/-- Claim C3 (behaviour at the failing input): the newline replacement
of the source is applied to the command f-string — a string containing
no newline, so the replacement is the identity on it — and the captured
log text reaches the line classifier verbatim.  A log text whose commit
message embeds a literal newline is therefore split at that newline:
the header line is cut short (message `"fix"` instead of an escaped
`"fix\nbug"`), and the overflow piece `"bug"` is diagnosed as an
unexpected line instead of remaining part of the one-line header. -/
theorem newline_replace_misapplied :
    git_log_command "temp_repo" = git_log_command_raw "temp_repo" ∧
    collect_commits
        "aaaaaaaaaaaaaaaaaaaaaaaaaaaaaaaaaaaaaaaa | alice | 2024-01-01 00:00:00 | fix\nbug\n1\t2\tfoo.txt" =
      ([{ hash := "aaaaaaaaaaaaaaaaaaaaaaaaaaaaaaaaaaaaaaaa", author := "alice",
          date := "2024-01-01 00:00:00", message := "fix", file := "foo.txt",
          additions := "1", deletions := "2" }],
       ["Unexpected format in line: bug"]) :=
  ⟨by decide, by decide⟩

lemma collectLines_nonheaders_author : ∀ (S : List String) (st : ParserState),
    (∀ l ∈ S, parseCommit l = none) →
    ∀ r ∈ (collectLines st S).1, r.author = st.current_author.getD "" := by
  intro S
  induction S with
  | nil => intro st _ r hr; rw [collectLines_nil] at hr; exact absurd hr (by simp)
  | cons l S ih =>
    intro st hS r hr
    rw [collectLines_cons] at hr
    have hcl : parseCommit l = none := hS l (by simp)
    rcases List.mem_append.mp hr with hr1 | hr2
    · exact processLine_nonheader_author st hcl r hr1
    · rw [processLine_nonheader_state st hcl] at hr2
      exact ih st (fun x hx => hS x (by simp [hx])) r hr2

/-- Claim C4: a commit-header line whose author capture is empty sets
the carried author to exactly the sentinel, a header with a non-empty
capture carries the capture unchanged, and every record emitted from
that header up to the next header line carries that carried author. -/
theorem empty_author_sentinel (st : ParserState) (L : String) (S : List String)
    (h a d m : String) (hnl : '\n' ∉ L.data)
    (hL : parseCommit L = some (h, a, d, m))
    (hS : ∀ l ∈ S, parseCommit l = none) :
    (processLine st L).1.current_author =
        some (if a = "" then "Unknown Author" else a) ∧
    ∀ r ∈ (collectLines st (L :: S)).1,
      r.author = (if a = "" then "Unknown Author" else a) := by
  have hpl : processLine st L = (stateOfHeader (some (h, a, d, m)), [], []) :=
    processLine_commit st hL
  constructor
  · rw [hpl]; rfl
  · intro r hr
    rw [collectLines_cons, hpl] at hr
    simp only [List.nil_append] at hr
    have := collectLines_nonheaders_author S (stateOfHeader (some (h, a, d, m))) hS r hr
    rw [this]
    rfl

/-- Witness for C4 at the specification's empty-author header followed
by one numstat line: the emitted record carries the sentinel author. -/
theorem empty_author_sentinel_witness :
    (processLine initialState
        "aaaaaaaaaaaaaaaaaaaaaaaaaaaaaaaaaaaaaaaa |  | 2024-01-01 00:00:00 | fix bug").1.current_author =
      some (if "" = "" then "Unknown Author" else "") ∧
    ∀ r ∈ (collectLines initialState
        ["aaaaaaaaaaaaaaaaaaaaaaaaaaaaaaaaaaaaaaaa |  | 2024-01-01 00:00:00 | fix bug",
         "5\t2\tfoo.txt"]).1,
      r.author = (if "" = "" then "Unknown Author" else "") :=
  empty_author_sentinel initialState
    "aaaaaaaaaaaaaaaaaaaaaaaaaaaaaaaaaaaaaaaa |  | 2024-01-01 00:00:00 | fix bug"
    ["5\t2\tfoo.txt"] "aaaaaaaaaaaaaaaaaaaaaaaaaaaaaaaaaaaaaaaa" ""
    "2024-01-01 00:00:00" "fix bug" (by decide) (by decide) (by decide)

/-- Claim C5: a numstat line processed under a defined carried hash
emits exactly one record whose additions, deletions and file fields are
the three captures verbatim — in particular the dash sentinel of a
binary change is preserved as the string itself, neither coerced nor
omitted — and whose hash is the carried hash. -/
theorem numstat_fields_verbatim (st : ParserState) (line : String)
    (h add del f : String) (hnl : '\n' ∉ line.data)
    (hh : st.current_hash = some h)
    (hn : parseNumstat line = some (add, del, f)) :
    (processLine st line).2.1.map
        (fun r => (r.additions, r.deletions, r.file)) = [(add, del, f)] ∧
    (processLine st line).2.1.map (fun r => r.hash) = [h] := by
  have hc : parseCommit line = none := by
    cases hcc : parseCommit line with
    | none => rfl
    | some y =>
      rw [parseCommit_some_numstat_none line y hcc] at hn
      exact absurd hn (by simp)
  rw [processLine_numstat_some st hc hn hh]
  constructor <;> rfl

/-- Witness for C5 at the specification's binary-change numstat line:
both counts stay the dash string. -/
theorem numstat_fields_verbatim_witness :
    (processLine ⟨some "deadbeefdeadbeefdeadbeefdeadbeefdeadbeef", some "alice",
        some "2024-01-01 00:00:00", some "m"⟩ "-\t-\tbinary.png").2.1.map
        (fun r => (r.additions, r.deletions, r.file)) = [("-", "-", "binary.png")] ∧
    (processLine ⟨some "deadbeefdeadbeefdeadbeefdeadbeefdeadbeef", some "alice",
        some "2024-01-01 00:00:00", some "m"⟩ "-\t-\tbinary.png").2.1.map
        (fun r => r.hash) = ["deadbeefdeadbeefdeadbeefdeadbeefdeadbeef"] :=
  numstat_fields_verbatim
    ⟨some "deadbeefdeadbeefdeadbeefdeadbeefdeadbeef", some "alice",
      some "2024-01-01 00:00:00", some "m"⟩
    "-\t-\tbinary.png" "deadbeefdeadbeefdeadbeefdeadbeefdeadbeef" "-" "-" "binary.png"
    (by decide) (by decide) (by decide)

/-- Claim C6: a commit-header line alone never emits a record — a
header at the end of the input contributes nothing, and a header
immediately followed by another header leaves both the records and the
diagnostics exactly as if the first header had not been there (the
second header overwrites the whole carried state). -/
theorem header_alone_no_records (st : ParserState) (L1 L2 : String)
    (rest : List String) (x1 x2 : CommitHeader)
    (hnl1 : '\n' ∉ L1.data) (hnl2 : '\n' ∉ L2.data)
    (hL1 : parseCommit L1 = some x1) (hL2 : parseCommit L2 = some x2) :
    collectLines st [L1] = ([], []) ∧
    collectLines st (L1 :: L2 :: rest) = collectLines st (L2 :: rest) := by
  obtain ⟨h1, a1, d1, m1⟩ := x1
  obtain ⟨h2, a2, d2, m2⟩ := x2
  have hp1 : processLine st L1 = (stateOfHeader (some (h1, a1, d1, m1)), [], []) :=
    processLine_commit st hL1
  have hp2 : ∀ st' : ParserState,
      processLine st' L2 = (stateOfHeader (some (h2, a2, d2, m2)), [], []) :=
    fun st' => processLine_commit st' hL2
  constructor
  · simp only [collectLines_cons, hp1, collectLines_nil, List.nil_append]
  · simp only [collectLines_cons, hp1, hp2, List.nil_append]

/-- Witness for C6 at two concrete header lines and a following numstat
line. -/
theorem header_alone_no_records_witness :
    collectLines initialState
        ["aaaaaaaaaaaaaaaaaaaaaaaaaaaaaaaaaaaaaaaa | alice | 2024-01-01 00:00:00 | one"] =
      ([], []) ∧
    collectLines initialState
        ["aaaaaaaaaaaaaaaaaaaaaaaaaaaaaaaaaaaaaaaa | alice | 2024-01-01 00:00:00 | one",
         "bbbbbbbbbbbbbbbbbbbbbbbbbbbbbbbbbbbbbbbb | bob | 2024-01-02 00:00:00 | two",
         "5\t2\tfoo.txt"] =
      collectLines initialState
        ["bbbbbbbbbbbbbbbbbbbbbbbbbbbbbbbbbbbbbbbb | bob | 2024-01-02 00:00:00 | two",
         "5\t2\tfoo.txt"] :=
  header_alone_no_records initialState
    "aaaaaaaaaaaaaaaaaaaaaaaaaaaaaaaaaaaaaaaa | alice | 2024-01-01 00:00:00 | one"
    "bbbbbbbbbbbbbbbbbbbbbbbbbbbbbbbbbbbbbbbb | bob | 2024-01-02 00:00:00 | two"
    ["5\t2\tfoo.txt"]
    ("aaaaaaaaaaaaaaaaaaaaaaaaaaaaaaaaaaaaaaaa", "alice", "2024-01-01 00:00:00", "one")
    ("bbbbbbbbbbbbbbbbbbbbbbbbbbbbbbbbbbbbbbbb", "bob", "2024-01-02 00:00:00", "two")
    (by decide) (by decide) (by decide) (by decide)

/-- Claim C7: a line matching neither pattern is skipped silently when
it is pure whitespace (no record, no diagnostic, state unchanged), and
produces exactly one unexpected-format diagnostic — with the state
unchanged and no record, parsing continuing — when it is non-empty
after stripping. -/
theorem unmatched_line_handling (st : ParserState) (line : String)
    (hnl : '\n' ∉ line.data) (hc : parseCommit line = none)
    (hn : parseNumstat line = none) :
    (stripTruthy line = false → processLine st line = (st, [], [])) ∧
    (stripTruthy line = true →
      processLine st line = (st, [], ["Unexpected format in line: " ++ line])) := by
  constructor
  · intro hs
    rw [processLine_nomatch st hc hn, if_neg (by rw [hs]; simp)]
  · intro hs
    rw [processLine_nomatch st hc hn, if_pos hs]

/-- Witness for C7, applied twice: at a pure-whitespace line (silent)
and at a non-blank garbage line (one diagnostic). -/
theorem unmatched_line_handling_witness :
    processLine initialState " \t " = (initialState, [], []) ∧
    processLine initialState "merge commit data" =
      (initialState, [], ["Unexpected format in line: merge commit data"]) :=
  ⟨(unmatched_line_handling initialState " \t " (by decide) (by decide) (by decide)).1
      (by decide),
   (unmatched_line_handling initialState "merge commit data" (by decide) (by decide)
      (by decide)).2 (by decide)⟩

lemma repo_already_existing_iff (owner name : String) : ∀ (l : List RepoEntry),
    (repo_already_existing owner name l).1 = true ↔
      ∃ r ∈ l, r.owner = owner ∧ r.repo_name = name := by
  intro l
  induction l with
  | nil => simp [repo_already_existing]
  | cons r rest ih =>
    unfold repo_already_existing
    by_cases h1 : r.owner = owner ∧ r.repo_name = name
    · rw [if_pos h1]
      constructor
      · intro _; exact ⟨r, by simp, h1⟩
      · intro _; rfl
    · rw [if_neg h1]
      have hstep : ∀ hb : (repo_already_existing owner name rest).1 = true,
          ∃ x ∈ r :: rest, x.owner = owner ∧ x.repo_name = name := by
        intro hb
        obtain ⟨x, hx, hxx⟩ := ih.mp hb
        exact ⟨x, by simp [hx], hxx⟩
      have hback : (∃ x ∈ r :: rest, x.owner = owner ∧ x.repo_name = name) →
          (repo_already_existing owner name rest).1 = true := by
        rintro ⟨x, hx, hxx⟩
        rcases List.mem_cons.mp hx with rfl | hx2
        · exact absurd hxx h1
        · exact ih.mpr ⟨x, hx2, hxx⟩
      by_cases h2 : r.repo_name = name
      · rw [if_pos h2]
        exact ⟨fun hb => hstep hb, fun hx => hback hx⟩
      · rw [if_neg h2]
        exact ⟨fun hb => hstep hb, fun hx => hback hx⟩

/-- Claim C8: for a pair matched by some entry of the fixed list on
both owner and name, the guard returns true and the driver performs no
stage at all; for an unmatched pair the guard returns false and the
pipeline proceeds through clone, collection, export and cleanup. -/
theorem repo_skip_guard (owner name : String) :
    ((∃ r ∈ repos, r.owner = owner ∧ r.repo_name = name) →
      (repo_already_existing owner name repos).1 = true ∧
      get_commit_history_as_csv owner name = []) ∧
    ((¬ ∃ r ∈ repos, r.owner = owner ∧ r.repo_name = name) →
      (repo_already_existing owner name repos).1 = false ∧
      get_commit_history_as_csv owner name =
        [PipelineStep.cloneRepo, PipelineStep.collectCommits,
         PipelineStep.exportCsv, PipelineStep.removeTempDir]) := by
  constructor
  · intro hex
    have hb : (repo_already_existing owner name repos).1 = true :=
      (repo_already_existing_iff owner name repos).mpr hex
    exact ⟨hb, by simp [get_commit_history_as_csv, hb]⟩
  · intro hnex
    have hb : (repo_already_existing owner name repos).1 = false := by
      cases hval : (repo_already_existing owner name repos).1
      · rfl
      · exact absurd ((repo_already_existing_iff owner name repos).mp hval) hnex
    exact ⟨hb, by simp [get_commit_history_as_csv, hb]⟩

/-- Witness for C8: a listed pair is skipped with no stage performed,
an unlisted pair proceeds through all four stages. -/
theorem repo_skip_guard_witness :
    ((repo_already_existing "tensorflow" "tensorflow" repos).1 = true ∧
      get_commit_history_as_csv "tensorflow" "tensorflow" = []) ∧
    ((repo_already_existing "octocat" "hello-world" repos).1 = false ∧
      get_commit_history_as_csv "octocat" "hello-world" =
        [PipelineStep.cloneRepo, PipelineStep.collectCommits,
         PipelineStep.exportCsv, PipelineStep.removeTempDir]) :=
  ⟨(repo_skip_guard "tensorflow" "tensorflow").1 (by decide),
   (repo_skip_guard "octocat" "hello-world").2 (by decide)⟩

/-- Claim C9: when the target directory already exists, `clone_repo`
fails with the directory-conflict error before attempting any clone:
no directory is created, no clone action is performed, and the
filesystem paths are left unchanged (the error carries no new path
list and no action). -/
theorem clone_repo_directory_conflict (paths : List String)
    (owner name dir token : String) (hex : dir ∈ paths) :
    clone_repo paths owner name dir token =
      Except.error (singleQuote ++ dir ++ singleQuote ++
        " already exists. Please provide a different path or remove the directory.") := by
  unfold clone_repo
  rw [if_pos hex]

/-- Witness for C9 at the concrete temporary directory name of the
source. -/
theorem clone_repo_directory_conflict_witness :
    clone_repo ["temp_repo"] "microsoft" "vscode" "temp_repo" "token" =
      Except.error (singleQuote ++ "temp_repo" ++ singleQuote ++
        " already exists. Please provide a different path or remove the directory.") :=
  clone_repo_directory_conflict ["temp_repo"] "microsoft" "vscode" "temp_repo" "token"
    (by decide)

lemma asString_data (l : List Char) : (List.asString l).data = l := rfl

lemma asString_ne_empty {l : List Char} (h : l ≠ []) : l.asString ≠ "" := by
  intro hf
  apply h
  have hd : (l.asString).data = String.data "" := by rw [hf]
  rw [asString_data] at hd
  exact hd

lemma parseCommit_hash_hex (line : String) (h a d m : String)
    (hp : parseCommit line = some (h, a, d, m)) : HexString40 h := by
  unfold parseCommit at hp
  by_cases hcond : (line.data.take 40).length = 40 ∧
      (∀ c ∈ line.data.take 40, isHexChar c = true)
  · rw [if_pos hcond] at hp
    cases hsep : sepHere (line.data.drop 40) with
    | none => rw [hsep] at hp; exact absurd hp (by simp)
    | some post =>
      simp only [hsep] at hp
      cases hadm : authorDateMsg post with
      | none => rw [hadm] at hp; exact absurd hp (by simp)
      | some adm =>
        simp only [hadm, Option.some.injEq, Prod.mk.injEq] at hp
        obtain ⟨hh, _, _, _⟩ := hp
        rw [← hh]
        exact ⟨by rw [asString_data]; exact hcond.1,
               by rw [asString_data]; exact hcond.2⟩
  · rw [if_neg hcond] at hp
    exact absurd hp (by simp)

lemma numField_shape (cs g r : List Char) (h : numField cs = some (g, r)) :
    g = ['-'] ∨ (g ≠ [] ∧ ∀ c ∈ g, isAsciiDigit c = true) := by
  cases cs with
  | nil => exact absurd h (by simp [numField])
  | cons c rest =>
    rw [numField_cons] at h
    by_cases hd : c = '-'
    · rw [if_pos hd] at h
      simp only [Option.some.injEq, Prod.mk.injEq] at h
      exact Or.inl h.1.symm
    · rw [if_neg hd] at h
      by_cases htw : (c :: rest).takeWhile isAsciiDigit = []
      · rw [if_pos htw] at h; exact absurd h (by simp)
      · rw [if_neg htw] at h
        simp only [Option.some.injEq, Prod.mk.injEq] at h
        refine Or.inr ⟨?_, ?_⟩
        · rw [← h.1]; exact htw
        · intro x hx
          rw [← h.1] at hx
          exact mem_takeWhile_pred isAsciiDigit _ x hx

lemma numField_string (cs g r : List Char) (h : numField cs = some (g, r)) :
    DigitString g.asString ∨ g.asString = "-" := by
  rcases numField_shape cs g r h with hdash | ⟨hne, hdig⟩
  · right; rw [hdash]; rfl
  · left
    exact ⟨by rw [asString_data]; exact hne, by rw [asString_data]; exact hdig⟩

lemma parseNumstat_shape (line : String) (add del f : String)
    (h : parseNumstat line = some (add, del, f)) :
    (DigitString add ∨ add = "-") ∧ (DigitString del ∨ del = "-") ∧ f ≠ "" := by
  unfold parseNumstat at h
  cases hnf : numField line.data with
  | none =>
    rw [parseNumstatChars_none_of_numField hnf] at h
    exact absurd h (by simp)
  | some g1r =>
    obtain ⟨g1, r1⟩ := g1r
    rw [parseNumstatChars_after_g1 hnf] at h
    by_cases hw1 : r1.takeWhile isPySpace = []
    · rw [if_pos hw1] at h; exact absurd h (by simp)
    · rw [if_neg hw1] at h
      cases hnf2 : numField (r1.dropWhile isPySpace) with
      | none => rw [hnf2] at h; exact absurd h (by simp)
      | some g2r =>
        obtain ⟨g2, r2⟩ := g2r
        simp only [hnf2] at h
        by_cases hw2 : r2.takeWhile isPySpace = []
        · rw [if_pos hw2] at h; exact absurd h (by simp)
        · rw [if_neg hw2] at h
          by_cases hdw : r2.dropWhile isPySpace = []
          · rw [if_pos hdw] at h
            by_cases hlen : 2 ≤ r2.length
            · rw [if_pos hlen] at h
              simp only [Option.some.injEq, Prod.mk.injEq] at h
              obtain ⟨ha, hd2, hf⟩ := h
              have hfd : r2.drop (r2.length - 1) ≠ [] := by
                intro hnil
                have hl := List.length_drop (r2.length - 1) r2
                rw [hnil] at hl
                simp only [List.length_nil] at hl
                omega
              exact ⟨ha ▸ numField_string _ _ _ hnf,
                     hd2 ▸ numField_string _ _ _ hnf2,
                     hf ▸ asString_ne_empty hfd⟩
            · rw [if_neg hlen] at h; exact absurd h (by simp)
          · rw [if_neg hdw] at h
            simp only [Option.some.injEq, Prod.mk.injEq] at h
            obtain ⟨ha, hd2, hf⟩ := h
            exact ⟨ha ▸ numField_string _ _ _ hnf,
                   hd2 ▸ numField_string _ _ _ hnf2,
                   hf ▸ asString_ne_empty hdw⟩

/-- A carried state is well formed when a defined hash is a
forty-character hexadecimal string and comes with a defined, non-empty
author. -/
def StateWF (st : ParserState) : Prop :=
  (∀ h, st.current_hash = some h → HexString40 h) ∧
  (∀ h, st.current_hash = some h → ∃ a, st.current_author = some a ∧ a ≠ "")

lemma processLine_preserves_wf (st : ParserState) (line : String) (hwf : StateWF st) :
    StateWF (processLine st line).1 ∧
    ∀ r ∈ (processLine st line).2.1,
      HexString40 r.hash ∧ r.author ≠ "" ∧
      (DigitString r.additions ∨ r.additions = "-") ∧
      (DigitString r.deletions ∨ r.deletions = "-") ∧ r.file ≠ "" := by
  cases hc : parseCommit line with
  | some hdr =>
    obtain ⟨h, a, d, m⟩ := hdr
    rw [processLine_commit st hc]
    refine ⟨⟨?_, ?_⟩, ?_⟩
    · intro h' hh'
      injection hh' with hh'
      rw [← hh']
      exact parseCommit_hash_hex line h a d m hc
    · intro h' _
      refine ⟨if a = "" then "Unknown Author" else a, rfl, ?_⟩
      by_cases ha : a = ""
      · rw [if_pos ha]; decide
      · rw [if_neg ha]; exact ha
    · intro r hr; exact absurd hr (by simp)
  | none =>
    cases hn : parseNumstat line with
    | some nm =>
      obtain ⟨add, del, f⟩ := nm
      cases hh : st.current_hash with
      | some h =>
        rw [processLine_numstat_some st hc hn hh]
        refine ⟨hwf, ?_⟩
        intro r hr
        rw [List.mem_singleton.mp hr]
        obtain ⟨a, ha, hane⟩ := hwf.2 h hh
        refine ⟨hwf.1 h hh, ?_, (parseNumstat_shape line add del f hn).1,
          (parseNumstat_shape line add del f hn).2.1,
          (parseNumstat_shape line add del f hn).2.2⟩
        show st.current_author.getD "" ≠ ""
        rw [ha]
        exact hane
      | none =>
        rw [processLine_numstat_nohash st hc hn hh]
        exact ⟨hwf, by intro r hr; exact absurd hr (by simp)⟩
    | none =>
      rw [processLine_nomatch st hc hn]
      exact ⟨hwf, by intro r hr; exact absurd hr (by simp)⟩

lemma collectLines_wf : ∀ (ls : List String) (st : ParserState), StateWF st →
    ∀ r ∈ (collectLines st ls).1,
      HexString40 r.hash ∧ r.author ≠ "" ∧
      (DigitString r.additions ∨ r.additions = "-") ∧
      (DigitString r.deletions ∨ r.deletions = "-") ∧ r.file ≠ "" := by
  intro ls
  induction ls with
  | nil => intro st _ r hr; rw [collectLines_nil] at hr; exact absurd hr (by simp)
  | cons l ls ih =>
    intro st hwf r hr
    rw [collectLines_cons] at hr
    rcases List.mem_append.mp hr with hr1 | hr2
    · exact (processLine_preserves_wf st l hwf).2 r hr1
    · exact ih (processLine st l).1 (processLine_preserves_wf st l hwf).1 r hr2

/-- Claim C10: every record emitted by `collect_commits` on arbitrary
input is well formed — its hash is a forty-character hexadecimal
string, its author is never the empty string, its additions and
deletions are each a non-empty digit string or exactly the dash
sentinel, and its file path is non-empty. -/
theorem records_well_formed (log_output : String) (r : FileChangeRecord)
    (hr : r ∈ (collect_commits log_output).1) :
    HexString40 r.hash ∧ r.author ≠ "" ∧
    (DigitString r.additions ∨ r.additions = "-") ∧
    (DigitString r.deletions ∨ r.deletions = "-") ∧ r.file ≠ "" := by
  have hwf0 : StateWF initialState := by
    constructor <;> intro h hh <;> exact absurd hh (by simp [initialState])
  exact collectLines_wf _ initialState hwf0 r hr

/-- Witness for C10 at a concrete two-line log text and the record it
emits. -/
theorem records_well_formed_witness :
    (⟨"aaaaaaaaaaaaaaaaaaaaaaaaaaaaaaaaaaaaaaaa", "alice", "2024-01-01 00:00:00",
       "msg", "src/main.py", "3", "4"⟩ : FileChangeRecord) ∈
      (collect_commits
        "aaaaaaaaaaaaaaaaaaaaaaaaaaaaaaaaaaaaaaaa | alice | 2024-01-01 00:00:00 | msg\n3\t4\tsrc/main.py").1 ∧
    (HexString40 "aaaaaaaaaaaaaaaaaaaaaaaaaaaaaaaaaaaaaaaa" ∧ ("alice" : String) ≠ "" ∧
     (DigitString "3" ∨ ("3" : String) = "-") ∧
     (DigitString "4" ∨ ("4" : String) = "-") ∧ ("src/main.py" : String) ≠ "") :=
  ⟨by decide,
   records_well_formed
     "aaaaaaaaaaaaaaaaaaaaaaaaaaaaaaaaaaaaaaaa | alice | 2024-01-01 00:00:00 | msg\n3\t4\tsrc/main.py"
     ⟨"aaaaaaaaaaaaaaaaaaaaaaaaaaaaaaaaaaaaaaaa", "alice", "2024-01-01 00:00:00",
      "msg", "src/main.py", "3", "4"⟩ (by decide)⟩
